import Mathlib

/-!
# Verification of the listing normalization / merge-dedup pipeline

Shallow embedding of the core of the `IWantToBuyACarWithGoodPrice`
repository: the field normalizers, fingerprinter, listing record builder
and merge/dedup engine of `scrawling_ML/merge_results.py`, and the two
title parsers of `spiders/kijiji_spider.py` and
`spiders/autotrader_spider.py`.

Strings are manipulated through their underlying `List Char` so that every
definition is structurally recursive and evaluates by `decide`/`rfl`.
Python semantics modelled over the ASCII fragment (all inputs appearing in
the theorems below are ASCII):
* `str.lower()` / `str.title()` use `Char.toLower` / `Char.toUpper`;
* the regex classes `\w` and `\s` are `Char.isAlphanum || '_'` and the
  ASCII whitespace characters;
* `unicodedata.normalize("NFKC", s)` fixes every ASCII string, so it is
  modelled by the identity function `nfkc`.
-/

namespace CarMerge

/-- Python regex `\s` / `str.strip()` whitespace, ASCII fragment:
space, `\t`, `\n`, `\r`, `\x0b` (vertical tab), `\x0c` (form feed). -/
def isPySpace (c : Char) : Bool :=
  c = ' ' || c = '\t' || c = '\n' || c = '\r' || c = '\x0b' || c = '\x0c'

/-- Python regex `\w`, ASCII fragment: alphanumerics and underscore. -/
def isWordCh (c : Char) : Bool :=
  c.isAlphanum || c = '_'

/-- `str.strip()` on a character list: drop leading and trailing whitespace. -/
def pyStripL (cs : List Char) : List Char :=
  ((cs.dropWhile isPySpace).reverse.dropWhile isPySpace).reverse

/-- `str.strip()`. -/
def pyStrip (s : String) : String :=
  String.mk (pyStripL s.data)

/-- `str.lower()` (ASCII). -/
def pyLower (s : String) : String :=
  String.mk (s.data.map Char.toLower)

/-- `unicodedata.normalize("NFKC", s)`: Unicode compatibility
normalization. Every ASCII character is NFKC-invariant, and all strings in
this development are ASCII, so it is modelled by the identity. -/
def nfkc (s : String) : String := s

/-- Python truthiness-based `or` on string-or-null values:
`a or b` yields `b` when `a` is `None` or the empty string. -/
def pyOrS (a b : Option String) : Option String :=
  match a with
  | none => b
  | some s => if s = "" then b else some s

/-- Python `x or None` on a string-or-null value: `""` collapses to null. -/
def pyFalsyToNone (a : Option String) : Option String :=
  match a with
  | none => none
  | some s => if s = "" then none else some s

/-- `normalize_text` (merge_results.py lines 14-19):
`None` passes through; otherwise `str(s).strip()` then NFKC. -/
def normalize_text (s : Option String) : Option String :=
  match s with
  | none => none
  | some s => some (nfkc (pyStrip s))

/-- Digit-string value, most significant digit first. -/
def natOfDigits : List Char → Nat → Nat
  | [], acc => acc
  | c :: cs, acc => natOfDigits cs (acc * 10 + (c.toNat - '0'.toNat))

/-- Python `int(s)` on a string containing only digits and `-` characters
(the only call site filters to those): succeeds exactly on an optional
single leading minus followed by at least one digit. -/
def pyIntOfDigitsMinus (cs : List Char) : Option Int :=
  match cs with
  | [] => none
  | c :: rest =>
      if c = '-' then
        if rest ≠ [] ∧ rest.all Char.isDigit then some (-(natOfDigits rest 0 : Int)) else none
      else
        if (c :: rest).all Char.isDigit then some (natOfDigits (c :: rest) 0 : Int) else none

/-- `parse_int` (merge_results.py lines 21-30): on a string, remove every
character that is not a digit and not a minus sign
(`re.sub(r"[^\d\-]", "", s)`), then `int(...)` guarded by `try/except`,
with the empty remainder mapped to `None`. -/
def parse_int (v : Option String) : Option Int :=
  match v with
  | none => none
  | some s => pyIntOfDigitsMinus (s.data.filter (fun c => c.isDigit || c = '-'))

/-- Location delimiters of `canonicalize_location`: `re.split(r"[,/|-]", loc)`. -/
def isLocDelim (c : Char) : Bool :=
  c = ',' || c = '/' || c = '|' || c = '-'

/-- `re.split` on a single-character class: split at every delimiter
occurrence, keeping empty segments. -/
def splitDelims : List Char → List (List Char)
  | [] => [[]]
  | c :: cs =>
      if isLocDelim c then [] :: splitDelims cs
      else
        match splitDelims cs with
        | [] => [[c]]
        | p :: ps => (c :: p) :: ps

/-- `str.title()` (ASCII): a letter is uppercased when the previous
character is not a letter, lowercased otherwise; the flag records whether
the previous character was cased. -/
def pyTitleAux : Bool → List Char → List Char
  | _, [] => []
  | prevCased, c :: cs =>
      if c.isAlpha then
        (if prevCased then c.toLower else c.toUpper) :: pyTitleAux true cs
      else c :: pyTitleAux false cs

/-- `str.title()` on a character list. -/
def pyTitleL (cs : List Char) : List Char :=
  pyTitleAux false cs

/-- `", ".join(...)` on character lists. -/
def joinCommaSpace : List (List Char) → List Char
  | [] => []
  | [p] => p
  | p :: ps => p ++ ',' :: ' ' :: joinCommaSpace ps

/-- `canonicalize_location` (merge_results.py lines 32-41): null or empty
yields null; otherwise split on `,` `/` `|` `-`, keep
`p.strip().title()` for every part whose strip is non-empty, return null
if no part survives, else join the first two with `", "`. -/
def canonicalize_location (loc : Option String) : Option String :=
  match loc with
  | none => none
  | some s =>
      if s = "" then none
      else
        let parts := (splitDelims s.data).filterMap
          (fun p => let q := pyStripL p; if q = [] then none else some (pyTitleL q))
        match parts with
        | [] => none
        | _ => some (String.mk (joinCommaSpace (parts.take 2)))

/-- One step of `re.sub(r"\s+", " ", t)`: each maximal whitespace run
becomes a single space; the flag records whether the previous character
was whitespace (i.e. whether we are inside a run already emitted). -/
def collapseWsAux : Bool → List Char → List Char
  | _, [] => []
  | inRun, c :: cs =>
      if isPySpace c then
        if inRun then collapseWsAux true cs else ' ' :: collapseWsAux true cs
      else c :: collapseWsAux false cs

/-- `re.sub(r"\s+", " ", t)`. -/
def collapseWs (cs : List Char) : List Char :=
  collapseWsAux false cs

/-- The title component of `fingerprint` (merge_results.py line 44-45):
`re.sub(r"\s+", " ", re.sub(r"[^\w\s]", "", t.lower())).strip()` —
lowercase, drop every character that is neither a word character nor
whitespace, collapse whitespace runs to single spaces, strip. -/
def cleanTitle (t : String) : String :=
  String.mk (pyStripL (collapseWs
    ((t.data.map Char.toLower).filter (fun c => isWordCh c || isPySpace c))))

/-- Rendering of `rec.get("year") or ""` / `str(rec.get("price") or "")`
inside the fingerprint f-string: `None` and the falsy integer `0` both
render as the empty string; any other integer renders in decimal. -/
def falsyIntStr : Option Int → String
  | none => ""
  | some n => if n = 0 then "" else toString n

/-- A CanonicalListing as built by `normalize_listing` — the fields of the
`OrderedDict` of merge_results.py lines 64-74, in source order. -/
structure Listing where
  title : Option String
  price : Option Int
  mileage_km : Option Int
  year : Option Int
  model : Option String
  province_city : Option String
  link : Option String
  source : String
  extra : Option (List (String × Option String))
deriving DecidableEq, Repr

/-- `fingerprint` (merge_results.py lines 43-48):
`f"{t}|{y}|{p}"` where `t` is the cleaned title (`(title or "")`
lowercased, punctuation-stripped, whitespace-collapsed, stripped), and
`y`, `p` render `year`/`price` with Python falsiness (`x or ""`). -/
def fingerprint (rec : Listing) : String :=
  cleanTitle (rec.title.getD "") ++ "|" ++ falsyIntStr rec.year ++ "|" ++ falsyIntStr rec.price

/-- The fingerprint as the specification words it (§4.3): the cleaned
title, the year and the price joined by `|`, the year and the price
rendered as empty exactly when **null** (a non-null year or price always
renders in decimal). Used only to compare against `fingerprint`. -/
def specRenderInt : Option Int → String
  | none => ""
  | some n => toString n

/-- Spec-worded fingerprint (see `specRenderInt`). -/
def specFingerprint (rec : Listing) : String :=
  cleanTitle (rec.title.getD "") ++ "|" ++ specRenderInt rec.year ++ "|" ++ specRenderInt rec.price

/-- `raw.get(k)` on a RawListing: absent keys and explicit nulls both give
`None`. The RawListing dict is modelled as an association list of
string-or-null values (§3: "mapping of string keys to string-or-null
values"), first binding wins as in a dict. -/
def rawGet (raw : List (String × Option String)) (k : String) : Option String :=
  match raw.find? (fun kv => kv.1 = k) with
  | none => none
  | some kv => kv.2

/-- The raw keys consumed by the builder (merge_results.py line 62). -/
def consumedKeys : List String :=
  ["title", "price", "mileage_km", "mileage", "year", "model",
   "province_city", "location", "link", "url"]

/-- `normalize_listing` (merge_results.py lines 50-75). -/
def normalize_listing (raw : List (String × Option String)) (source_label : String) : Listing :=
  let title := normalize_text (pyOrS (rawGet raw "title") (pyOrS (rawGet raw "name") (some "")))
  let price := parse_int (rawGet raw "price")
  let mileage := parse_int (pyOrS (rawGet raw "mileage_km") (rawGet raw "mileage"))
  let year := parse_int (rawGet raw "year")
  let model := normalize_text (pyOrS (rawGet raw "model") (some ""))
  let province_city := canonicalize_location
    (pyOrS (rawGet raw "province_city") (pyOrS (rawGet raw "location") (rawGet raw "city")))
  let link := normalize_text (pyOrS (rawGet raw "link") (rawGet raw "url"))
  let extra := raw.filter (fun kv => ¬ kv.1 ∈ consumedKeys)
  { title := pyFalsyToNone title
    price := price
    mileage_km := mileage
    year := year
    model := pyFalsyToNone model
    province_city := pyFalsyToNone province_city
    link := pyFalsyToNone link
    source := source_label
    extra := if extra = [] then none else some extra }

/-- Values of the canonical `OrderedDict`. -/
inductive CVal where
  | vstr (s : String)
  | vint (n : Int)
  | vnull
  | vmap (m : List (String × Option String))
deriving DecidableEq, Repr

/-- `Option String` entry of the ordered dict. -/
def ovstr : Option String → CVal
  | none => CVal.vnull
  | some s => CVal.vstr s

/-- `Option Int` entry of the ordered dict. -/
def ovint : Option Int → CVal
  | none => CVal.vnull
  | some n => CVal.vint n

/-- The `OrderedDict` view of a `Listing`: the key/value pairs of
merge_results.py lines 64-74 in their construction order. -/
def listingFields (r : Listing) : List (String × CVal) :=
  [("title", ovstr r.title),
   ("price", ovint r.price),
   ("mileage_km", ovint r.mileage_km),
   ("year", ovint r.year),
   ("model", ovstr r.model),
   ("province_city", ovstr r.province_city),
   ("link", ovstr r.link),
   ("source", CVal.vstr r.source),
   ("extra", match r.extra with | none => CVal.vnull | some m => CVal.vmap m)]

/-- `link = rec.get("link"); if link:` — the link value when truthy
(non-null and non-empty), else `none`. -/
def truthyLink (rec : Listing) : Option String :=
  match rec.link with
  | none => none
  | some s => if s = "" then none else some s

/-- The dedup loop of `merge_files` (merge_results.py lines 95-109),
returning the surviving records together with the final `seen_links` and
`seen_fp` sets (modelled as lists, membership only). Note that a record
dropped as a link-duplicate is dropped **before** its fingerprint is
computed or recorded, and that a record whose fingerprint is a duplicate
still records its link as seen (line 104 runs before lines 105-107). -/
def dedupRun : List Listing → List String → List String →
    List Listing × List String × List String
  | [], seenL, seenF => ([], seenL, seenF)
  | rec :: rest, seenL, seenF =>
      match truthyLink rec with
      | some l =>
          if l ∈ seenL then dedupRun rest seenL seenF
          else
            let fp := fingerprint rec
            if fp ∈ seenF then dedupRun rest (l :: seenL) seenF
            else
              let r := dedupRun rest (l :: seenL) (fp :: seenF)
              (rec :: r.1, r.2)
      | none =>
          let fp := fingerprint rec
          if fp ∈ seenF then dedupRun rest seenL seenF
          else
            let r := dedupRun rest seenL (fp :: seenF)
            (rec :: r.1, r.2)

/-- The merged output of the dedup pass on a concatenated record list. -/
def mergeDedup (recs : List Listing) : List Listing :=
  (dedupRun recs [] []).1

/-- Lookup with default: `KNOWN_MODELS.get(brand.lower(), [])`. The
parsers are parameterized by the brand→models table (the repository's
global `KNOWN_MODELS` dict literal) so that vocabulary-quantified
properties can be stated; a dict is an association list, first binding
wins. -/
def lookupModels (tbl : List (String × List String)) (brand : String) : List String :=
  match tbl.find? (fun kv => kv.1 = brand) with
  | none => []
  | some kv => kv.2

/-- Literal occurrence of `pat` at index `i` of `text`. -/
def matchAt (text pat : List Char) (i : Nat) : Bool :=
  (text.drop i).take pat.length = pat

/-- Regex `\b` at position `i` of `text` (positions `0..text.length`):
true when exactly one of the adjacent characters is a word character. -/
def boundaryAt (text : List Char) (i : Nat) : Bool :=
  (decide (0 < i) && (match text.get? (i - 1) with | some c => isWordCh c | none => false))
    != (match text.get? i with | some c => isWordCh c | none => false)

/-- `re.search(r"\b" + re.escape(pat) + r"\b", text)` for a literal
pattern: some occurrence of `pat` with word boundaries at both extremes. -/
def boundarySearch (pat text : String) : Bool :=
  (List.range (text.data.length + 1)).any fun i =>
    matchAt text.data pat.data i && boundaryAt text.data i
      && boundaryAt text.data (i + pat.data.length)

/-- Python `pat in text`: bare substring test. -/
def pySubstr (pat text : String) : Bool :=
  (List.range (text.data.length + 1)).any fun i => matchAt text.data pat.data i

/-- Sort key of kijiji's `sorted(brand_models, key=lambda x: -len(x))`:
descending length. Python's sort is stable and a stable sort's output is
unique, so Mathlib's stable `insertionSort` by this relation computes the
same list. -/
def lenGE (a b : String) : Prop := b.length ≤ a.length

instance : DecidableRel lenGE := fun a b => Nat.decLe b.length a.length

instance : IsTotal String lenGE := ⟨fun a b => Nat.le_total b.length a.length⟩

instance : IsTrans String lenGE := ⟨fun _ _ _ h h' => Nat.le_trans h' h⟩

/-- The candidate test of kijiji's `parse_title` loop:
`re.search(r"\b" + re.escape(candidate.lower()) + r"\b", text_lower)`. -/
def kijijiMatches (candidate text : String) : Bool :=
  boundarySearch (pyLower candidate) text

/-- The model-selection loop of kijiji's `parse_title`
(kijiji_spider.py lines 378-383): candidates longest first, first one
passing the boundary test wins. -/
def kijijiFindModel (brand_models : List String) (text_lower : String) : Option String :=
  (brand_models.insertionSort lenGE).find? (fun c => kijijiMatches c text_lower)

/-- Kijiji year extraction, `re.match(r"(\d{4})\s+(.*)", title_text)`:
four leading digits followed by at least one whitespace character; the
remainder group is taken after the greedy whitespace run, up to the first
newline (`.` does not match `\n`). -/
def kijijiYearSplit (t : String) : Option String × String :=
  let cs := t.data
  if 5 ≤ cs.length ∧ (cs.take 4).all Char.isDigit ∧ isPySpace ((cs.drop 4).headD 'x') then
    (some (String.mk (cs.take 4)),
     String.mk (((cs.drop 4).dropWhile isPySpace).takeWhile (fun c => c ≠ '\n')))
  else (none, t)

/-- Kijiji working text: `rest.split("|")[0].strip()` lowercased —
the prefix of the year-stripped title before the first `|`, stripped,
lowercased. -/
def kijijiWorkingText (title_text : String) : String :=
  let rest := (kijijiYearSplit title_text).2
  pyLower (pyStrip (String.mk (rest.data.takeWhile (fun c => c ≠ '|'))))

/-- `parse_title` of kijiji_spider.py (lines 357-386). The year is the
matched digit string (kept as a string in this spider). -/
def kijijiParseTitle (tbl : List (String × List String)) (title_text brand : String) :
    Option String × Option String :=
  if title_text = "" then (none, none)
  else
    ((kijijiYearSplit title_text).1,
     kijijiFindModel (lookupModels tbl (pyLower brand)) (kijijiWorkingText title_text))

/-- `parse_title` of autotrader_spider.py (lines 286-299): the year is
`int` of four leading digits when present; the model is the **first**
candidate in vocabulary order whose lowercasing is a **bare substring** of
the lowercased full title. -/
def autotraderParseTitle (tbl : List (String × List String)) (title brand : String) :
    Option Int × Option String :=
  if title = "" then (none, none)
  else
    let year :=
      if 4 ≤ title.data.length ∧ (title.data.take 4).all Char.isDigit then
        some (natOfDigits (title.data.take 4) 0 : Int)
      else none
    let title_lower := pyLower title
    (year, (lookupModels tbl (pyLower brand)).find? (fun m => pySubstr (pyLower m) title_lower))

/-- The `parse_int` contract as the specification words it (§4.1), for
comparison with `parse_int`: strips every character that is not a digit or
a **leading** minus sign (a minus is kept only as the first character of
the input), then parses the remainder, null when empty or unparseable. -/
def specParseInt (v : Option String) : Option Int :=
  match v with
  | none => none
  | some s =>
      match s.data with
      | '-' :: rest => pyIntOfDigitsMinus ('-' :: rest.filter Char.isDigit)
      | cs => pyIntOfDigitsMinus (cs.filter Char.isDigit)

/-- A record is "marked" in the seen-sets when the dedup loop would drop
it: its truthy link is a seen link, or (having no truthy link) its
fingerprint is a seen fingerprint. -/
def marked (L F : List String) (rec : Listing) : Prop :=
  match truthyLink rec with
  | some l => l ∈ L
  | none => fingerprint rec ∈ F

/-! ## Lemmas about the merge/dedup engine -/

theorem dedupRun_nil (L F : List String) : dedupRun [] L F = ([], L, F) := rfl

theorem dedupRun_grow : ∀ (xs : List Listing) (L F : List String),
    L ⊆ (dedupRun xs L F).2.1 ∧ F ⊆ (dedupRun xs L F).2.2
  | [], _, _ => ⟨fun _ h => h, fun _ h => h⟩
  | x :: xs, L, F => by
      cases h : truthyLink x with
      | some l =>
          by_cases hl : l ∈ L
          · simpa [dedupRun, h, hl] using dedupRun_grow xs L F
          · by_cases hf : fingerprint x ∈ F
            · have := dedupRun_grow xs (l :: L) F
              simp only [dedupRun, h, if_neg hl, if_pos hf]
              exact ⟨fun a ha => this.1 (List.mem_cons_of_mem _ ha), this.2⟩
            · have := dedupRun_grow xs (l :: L) (fingerprint x :: F)
              simp only [dedupRun, h, if_neg hl, if_neg hf]
              exact ⟨fun a ha => this.1 (List.mem_cons_of_mem _ ha),
                     fun a ha => this.2 (List.mem_cons_of_mem _ ha)⟩
      | none =>
          by_cases hf : fingerprint x ∈ F
          · simpa [dedupRun, h, hf] using dedupRun_grow xs L F
          · have := dedupRun_grow xs L (fingerprint x :: F)
            simp only [dedupRun, h, if_neg hf]
            exact ⟨this.1, fun a ha => this.2 (List.mem_cons_of_mem _ ha)⟩

theorem dedupRun_append : ∀ (xs ys : List Listing) (L F : List String),
    dedupRun (xs ++ ys) L F =
      ((dedupRun xs L F).1 ++ (dedupRun ys (dedupRun xs L F).2.1 (dedupRun xs L F).2.2).1,
       (dedupRun ys (dedupRun xs L F).2.1 (dedupRun xs L F).2.2).2)
  | [], ys, L, F => by simp [dedupRun]
  | x :: xs, ys, L, F => by
      cases h : truthyLink x with
      | some l =>
          by_cases hl : l ∈ L
          · simp [dedupRun, h, hl, dedupRun_append xs ys L F]
          · by_cases hf : fingerprint x ∈ F
            · simp [dedupRun, h, hl, hf, dedupRun_append xs ys (l :: L) F]
            · simp [dedupRun, h, hl, hf, dedupRun_append xs ys (l :: L) (fingerprint x :: F)]
      | none =>
          by_cases hf : fingerprint x ∈ F
          · simp [dedupRun, h, hf, dedupRun_append xs ys L F]
          · simp [dedupRun, h, hf, dedupRun_append xs ys L (fingerprint x :: F)]

theorem marked_mono {L F L' F' : List String} {rec : Listing}
    (hL : L ⊆ L') (hF : F ⊆ F') (h : marked L F rec) : marked L' F' rec := by
  unfold marked at h ⊢
  cases ht : truthyLink rec with
  | some l => rw [ht] at h; exact hL h
  | none => rw [ht] at h; exact hF h

theorem dedupRun_marks : ∀ (xs : List Listing) (L F : List String),
    ∀ rec ∈ xs, marked (dedupRun xs L F).2.1 (dedupRun xs L F).2.2 rec
  | [], _, _, _, h => absurd h (List.not_mem_nil _)
  | x :: xs, L, F, rec, hrec => by
      rcases List.mem_cons.mp hrec with heq | hmem
      · subst heq
        cases h : truthyLink rec with
        | some l =>
            by_cases hl : l ∈ L
            · have hg := dedupRun_grow xs L F
              simp only [dedupRun, h, if_pos hl]
              unfold marked
              rw [h]
              exact hg.1 hl
            · by_cases hf : fingerprint rec ∈ F
              · have hg := dedupRun_grow xs (l :: L) F
                simp only [dedupRun, h, if_neg hl, if_pos hf]
                unfold marked
                rw [h]
                exact hg.1 (List.mem_cons_self _ _)
              · have hg := dedupRun_grow xs (l :: L) (fingerprint rec :: F)
                simp only [dedupRun, h, if_neg hl, if_neg hf]
                unfold marked
                rw [h]
                exact hg.1 (List.mem_cons_self _ _)
        | none =>
            by_cases hf : fingerprint rec ∈ F
            · have hg := dedupRun_grow xs L F
              simp only [dedupRun, h, if_pos hf]
              unfold marked
              rw [h]
              exact hg.2 hf
            · have hg := dedupRun_grow xs L (fingerprint rec :: F)
              simp only [dedupRun, h, if_neg hf]
              unfold marked
              rw [h]
              exact hg.2 (List.mem_cons_self _ _)
      · cases h : truthyLink x with
        | some l =>
            by_cases hl : l ∈ L
            · simpa [dedupRun, h, hl] using dedupRun_marks xs L F rec hmem
            · by_cases hf : fingerprint x ∈ F
              · simpa [dedupRun, h, hl, hf] using dedupRun_marks xs (l :: L) F rec hmem
              · simpa [dedupRun, h, hl, hf] using
                  dedupRun_marks xs (l :: L) (fingerprint x :: F) rec hmem
        | none =>
            by_cases hf : fingerprint x ∈ F
            · simpa [dedupRun, h, hf] using dedupRun_marks xs L F rec hmem
            · simpa [dedupRun, h, hf] using dedupRun_marks xs L (fingerprint x :: F) rec hmem

theorem dedupRun_drop_marked : ∀ (xs : List Listing) (L F : List String),
    (∀ rec ∈ xs, marked L F rec) → dedupRun xs L F = ([], L, F)
  | [], _, _, _ => rfl
  | x :: xs, L, F, h => by
      have hx := h x (List.mem_cons_self _ _)
      have hxs : ∀ rec ∈ xs, marked L F rec := fun rec hr => h rec (List.mem_cons_of_mem _ hr)
      unfold marked at hx
      cases ht : truthyLink x with
      | some l =>
          rw [ht] at hx
          simp only [dedupRun, ht, if_pos hx]
          exact dedupRun_drop_marked xs L F hxs
      | none =>
          rw [ht] at hx
          simp only [dedupRun, ht, if_pos hx]
          exact dedupRun_drop_marked xs L F hxs

theorem dedupRun_no_link_after_seen : ∀ (xs : List Listing) (L F : List String) (l : String),
    l ∈ L → ∀ rec ∈ (dedupRun xs L F).1, truthyLink rec ≠ some l
  | [], _, _, _, _, _, h => absurd h (List.not_mem_nil _)
  | x :: xs, L, F, l, hl, rec, hrec => by
      cases ht : truthyLink x with
      | some l' =>
          by_cases hl' : l' ∈ L
          · rw [show dedupRun (x :: xs) L F = dedupRun xs L F by
              simp only [dedupRun, ht, if_pos hl']] at hrec
            exact dedupRun_no_link_after_seen xs L F l hl rec hrec
          · have hne : l' ≠ l := fun h => hl' (h ▸ hl)
            by_cases hf : fingerprint x ∈ F
            · rw [show dedupRun (x :: xs) L F = dedupRun xs (l' :: L) F by
                simp only [dedupRun, ht, if_neg hl', if_pos hf]] at hrec
              exact dedupRun_no_link_after_seen xs (l' :: L) F l
                (List.mem_cons_of_mem _ hl) rec hrec
            · have hout : (dedupRun (x :: xs) L F).1
                  = x :: (dedupRun xs (l' :: L) (fingerprint x :: F)).1 := by
                simp only [dedupRun, ht, if_neg hl', if_neg hf]
              rw [hout] at hrec
              rcases List.mem_cons.mp hrec with heq | hmem
              · subst heq
                rw [ht]
                exact fun h => hne (Option.some.inj h)
              · exact dedupRun_no_link_after_seen xs (l' :: L) (fingerprint x :: F) l
                  (List.mem_cons_of_mem _ hl) rec hmem
      | none =>
          by_cases hf : fingerprint x ∈ F
          · rw [show dedupRun (x :: xs) L F = dedupRun xs L F by
              simp only [dedupRun, ht, if_pos hf]] at hrec
            exact dedupRun_no_link_after_seen xs L F l hl rec hrec
          · have hout : (dedupRun (x :: xs) L F).1
                = x :: (dedupRun xs L (fingerprint x :: F)).1 := by
              simp only [dedupRun, ht, if_neg hf]
            rw [hout] at hrec
            rcases List.mem_cons.mp hrec with heq | hmem
            · subst heq
              rw [ht]
              exact fun h => Option.noConfusion h
            · exact dedupRun_no_link_after_seen xs L (fingerprint x :: F) l hl rec hmem

theorem dedupRun_countP_link_le_one : ∀ (xs : List Listing) (L F : List String) (l : String),
    ((dedupRun xs L F).1.countP (fun rec => truthyLink rec == some l)) ≤ 1
  | [], _, _, _ => by simp [dedupRun]
  | x :: xs, L, F, l => by
      cases ht : truthyLink x with
      | some l' =>
          by_cases hl' : l' ∈ L
          · rw [show dedupRun (x :: xs) L F = dedupRun xs L F by
              simp only [dedupRun, ht, if_pos hl']]
            exact dedupRun_countP_link_le_one xs L F l
          · by_cases hf : fingerprint x ∈ F
            · rw [show dedupRun (x :: xs) L F = dedupRun xs (l' :: L) F by
                simp only [dedupRun, ht, if_neg hl', if_pos hf]]
              exact dedupRun_countP_link_le_one xs (l' :: L) F l
            · have hout : (dedupRun (x :: xs) L F).1
                  = x :: (dedupRun xs (l' :: L) (fingerprint x :: F)).1 := by
                simp only [dedupRun, ht, if_neg hl', if_neg hf]
              rw [hout, List.countP_cons]
              by_cases heq : l' = l
              · subst heq
                have hzero : (dedupRun xs (l' :: L) (fingerprint x :: F)).1.countP
                    (fun rec => truthyLink rec == some l') = 0 := by
                  rw [List.countP_eq_zero]
                  intro rec hrec
                  have := dedupRun_no_link_after_seen xs (l' :: L) (fingerprint x :: F) l'
                    (List.mem_cons_self _ _) rec hrec
                  simpa using this
                simp [hzero, ht]
              · have : (truthyLink x == some l) = false := by
                  rw [ht]
                  simpa using fun h => heq h
                simp only [this, if_neg Bool.false_ne_true, Nat.add_zero]
                exact dedupRun_countP_link_le_one xs (l' :: L) (fingerprint x :: F) l
      | none =>
          by_cases hf : fingerprint x ∈ F
          · rw [show dedupRun (x :: xs) L F = dedupRun xs L F by
              simp only [dedupRun, ht, if_pos hf]]
            exact dedupRun_countP_link_le_one xs L F l
          · have hout : (dedupRun (x :: xs) L F).1
                = x :: (dedupRun xs L (fingerprint x :: F)).1 := by
              simp only [dedupRun, ht, if_neg hf]
            rw [hout, List.countP_cons]
            have : (truthyLink x == some l) = false := by
              rw [ht]
              simp
            simp only [this, if_neg Bool.false_ne_true, Nat.add_zero]
            exact dedupRun_countP_link_le_one xs L (fingerprint x :: F) l

theorem dedupRun_link_survivor_first : ∀ (xs : List Listing) (L F : List String) (l : String),
    l ∉ L → ∀ rec ∈ (dedupRun xs L F).1, truthyLink rec = some l →
      xs.find? (fun x => truthyLink x == some l) = some rec
  | [], _, _, _, _, _, h, _ => absurd h (List.not_mem_nil _)
  | x :: xs, L, F, l, hl, rec, hrec, hlink => by
      cases ht : truthyLink x with
      | some l' =>
          by_cases heq : l' = l
          · subst heq
            -- `x` is the first record carrying link `l'`; since `l' ∉ L` the
            -- loop reaches the fingerprint stage and, kept or dropped, it
            -- records `l'`, so no later survivor carries it.
            rw [List.find?_cons_of_pos _ (by simp [ht])]
            by_cases hf : fingerprint x ∈ F
            · rw [show dedupRun (x :: xs) L F = dedupRun xs (l' :: L) F by
                simp only [dedupRun, ht, if_neg hl, if_pos hf]] at hrec
              exact absurd hlink (dedupRun_no_link_after_seen xs (l' :: L) F l'
                (List.mem_cons_self _ _) rec hrec)
            · have hout : (dedupRun (x :: xs) L F).1
                  = x :: (dedupRun xs (l' :: L) (fingerprint x :: F)).1 := by
                simp only [dedupRun, ht, if_neg hl, if_neg hf]
              rw [hout] at hrec
              rcases List.mem_cons.mp hrec with hx | hmem
              · rw [hx]
              · exact absurd hlink (dedupRun_no_link_after_seen xs (l' :: L)
                  (fingerprint x :: F) l' (List.mem_cons_self _ _) rec hmem)
          · rw [List.find?_cons_of_neg _ (by simp [ht, heq])]
            by_cases hl' : l' ∈ L
            · rw [show dedupRun (x :: xs) L F = dedupRun xs L F by
                simp only [dedupRun, ht, if_pos hl']] at hrec
              exact dedupRun_link_survivor_first xs L F l hl rec hrec hlink
            · have hlL : l ∉ l' :: L := by
                intro h
                rcases List.mem_cons.mp h with h | h
                · exact heq h.symm
                · exact hl h
              by_cases hf : fingerprint x ∈ F
              · rw [show dedupRun (x :: xs) L F = dedupRun xs (l' :: L) F by
                  simp only [dedupRun, ht, if_neg hl', if_pos hf]] at hrec
                exact dedupRun_link_survivor_first xs (l' :: L) F l hlL rec hrec hlink
              · have hout : (dedupRun (x :: xs) L F).1
                    = x :: (dedupRun xs (l' :: L) (fingerprint x :: F)).1 := by
                  simp only [dedupRun, ht, if_neg hl', if_neg hf]
                rw [hout] at hrec
                rcases List.mem_cons.mp hrec with hx | hmem
                · subst hx
                  rw [ht] at hlink
                  exact absurd (Option.some.inj hlink) heq
                · exact dedupRun_link_survivor_first xs (l' :: L) (fingerprint x :: F) l
                    hlL rec hmem hlink
      | none =>
          rw [List.find?_cons_of_neg _ (by simp [ht])]
          by_cases hf : fingerprint x ∈ F
          · rw [show dedupRun (x :: xs) L F = dedupRun xs L F by
              simp only [dedupRun, ht, if_pos hf]] at hrec
            exact dedupRun_link_survivor_first xs L F l hl rec hrec hlink
          · have hout : (dedupRun (x :: xs) L F).1
                = x :: (dedupRun xs L (fingerprint x :: F)).1 := by
              simp only [dedupRun, ht, if_neg hf]
            rw [hout] at hrec
            rcases List.mem_cons.mp hrec with hx | hmem
            · subst hx
              rw [ht] at hlink
              exact Option.noConfusion hlink
            · exact dedupRun_link_survivor_first xs L (fingerprint x :: F) l hl rec hmem hlink

theorem truthyLink_eq_iff {rec : Listing} {l : String} (hl : l ≠ "") :
    truthyLink rec = some l ↔ rec.link = some l := by
  unfold truthyLink
  cases h : rec.link with
  | none => simp
  | some s =>
      by_cases hs : s = ""
      · subst hs
        simp only [if_pos rfl]
        constructor
        · intro h
          exact absurd h (fun h => Option.noConfusion h)
        · intro h
          exact absurd (Option.some.inj h).symm hl
      · simp only [if_neg hs]

theorem linkPred_eq (l : String) (hl : l ≠ "") :
    (fun rec : Listing => rec.link == some l) = (fun rec => truthyLink rec == some l) := by
  funext rec
  have := @truthyLink_eq_iff rec l hl
  by_cases h : rec.link = some l
  · simp [h, this.mpr h]
  · have h2 : truthyLink rec ≠ some l := fun hh => h (this.mp hh)
    simp [h, h2]

/-! ## Lemmas about the title parsers -/

theorem find?_sorted_len_max (p : String → Bool) :
    ∀ (l : List String), l.Pairwise lenGE → ∀ m, l.find? p = some m →
      ∀ c ∈ l, p c = true → c.length ≤ m.length
  | [], _, m, h => by simp [List.find?] at h
  | x :: l, hp, m, h => by
      intro c hc hpc
      rcases List.pairwise_cons.mp hp with ⟨hx, hl⟩
      by_cases hpx : p x = true
      · rw [List.find?_cons_of_pos _ hpx] at h
        rcases List.mem_cons.mp hc with hcx | hcl
        · subst hcx
          rw [Option.some.inj h]
        · rw [← Option.some.inj h]
          exact hx c hcl
      · rw [List.find?_cons_of_neg _ (by simpa using hpx)] at h
        rcases List.mem_cons.mp hc with hcx | hcl
        · subst hcx
          exact absurd hpc hpx
        · exact find?_sorted_len_max p l hl m h c hcl hpc

theorem kijijiFindModel_longest {models : List String} {text m : String}
    (h : kijijiFindModel models text = some m) :
    m ∈ models ∧ kijijiMatches m text = true ∧
      ∀ c ∈ models, kijijiMatches c text = true → c.length ≤ m.length := by
  unfold kijijiFindModel at h
  refine ⟨?_, ?_, ?_⟩
  · have := List.mem_of_find?_eq_some h
    rwa [List.mem_insertionSort] at this
  · simpa using List.find?_some h
  · intro c hc hmatch
    exact find?_sorted_len_max _ (models.insertionSort lenGE)
      (List.sorted_insertionSort lenGE models) m h c
      ((List.mem_insertionSort lenGE).mpr hc) hmatch

theorem pyIntOfDigitsMinus_of_all_digits (cs : List Char) (hd : cs.all Char.isDigit = true) :
    pyIntOfDigitsMinus cs = none ∨ ∃ n : Int, pyIntOfDigitsMinus cs = some n ∧ 0 ≤ n := by
  cases cs with
  | nil => exact Or.inl rfl
  | cons c rest =>
      have hc : c.isDigit = true := List.all_eq_true.mp hd c (List.mem_cons_self _ _)
      have hcm : c ≠ '-' := by
        intro h
        rw [h] at hc
        exact absurd hc (by decide)
      simp only [pyIntOfDigitsMinus]
      rw [if_neg hcm, if_pos hd]
      exact Or.inr ⟨_, rfl, Int.natCast_nonneg _⟩

/-! ## The claims -/

/-- Claim C1: in the merge/dedup engine, for every pair of input records
carrying an equal non-null (here: truthy — canonical links are never the
empty string) `link`, at most one record survives into the merged output,
and it is the first one in concatenation order; a later duplicate is
dropped before its fingerprint is computed or recorded as seen (the seen
sets are untouched by the drop). -/
theorem C1_link_dedup_first_survivor (recs : List Listing) (l : String) (hl : l ≠ "") :
    (mergeDedup recs).countP (fun rec => rec.link == some l) ≤ 1
  ∧ (∀ rec ∈ mergeDedup recs, rec.link = some l →
        recs.find? (fun x => x.link == some l) = some rec)
  ∧ (∀ (rec : Listing) (rest : List Listing) (L F : List String),
        rec.link = some l → l ∈ L → dedupRun (rec :: rest) L F = dedupRun rest L F) := by
  refine ⟨?_, ?_, ?_⟩
  · rw [linkPred_eq l hl]
    exact dedupRun_countP_link_le_one recs [] [] l
  · intro rec hrec hlink
    rw [linkPred_eq l hl]
    exact dedupRun_link_survivor_first recs [] [] l (List.not_mem_nil _) rec hrec
      ((truthyLink_eq_iff hl).mpr hlink)
  · intro rec rest L F hlink hmem
    have ht := (truthyLink_eq_iff hl).mpr hlink
    simp [dedupRun, ht, hmem]

/-- Witness for C1 at two concrete records sharing the link
`http://x/1`. -/
theorem C1_link_dedup_witness :
    (mergeDedup
      [⟨some "a", none, none, none, none, none, some "http://x/1", "autotrader", none⟩,
       ⟨some "b", none, none, none, none, none, some "http://x/1", "kijiji", none⟩]).countP
      (fun rec => rec.link == some "http://x/1") ≤ 1 :=
  (C1_link_dedup_first_survivor _ "http://x/1" (by decide)).1

/-- Claim C2: merging a dataset `D` with itself — running the dedup pass
over `D`'s listings concatenated with a second copy of themselves —
yields exactly the same surviving records, in the same order, as merging
`D` alone. -/
theorem C2_merge_idempotent (D : List Listing) : mergeDedup (D ++ D) = mergeDedup D := by
  unfold mergeDedup
  rw [dedupRun_append,
      dedupRun_drop_marked D _ _ (fun rec hr => dedupRun_marks D [] [] rec hr)]
  simp

/-- Counterexample to claim C3 as stated: on a record with price `0`
(non-null), the code renders the price component empty — the fingerprint
is not `<clean_title>|<year>|<price>` with empty components exactly for
null fields. -/
theorem C3_fingerprint_spec_counterexample :
    fingerprint ⟨some "a", some 0, none, some 2020, none, none, none, "autotrader", none⟩
      = "a|2020|"
  ∧ specFingerprint ⟨some "a", some 0, none, some 2020, none, none, none, "autotrader", none⟩
      = "a|2020|0"
  ∧ fingerprint ⟨some "a", some 0, none, some 2020, none, none, none, "autotrader", none⟩
      ≠ specFingerprint ⟨some "a", some 0, none, some 2020, none, none, none, "autotrader", none⟩ := by
  decide

/-- Claim C3 as amended: the fingerprint is
`<clean_title>|<year>|<price>` where year and price render as empty when
null **or zero** (Python falsiness); records whose cleaned titles agree
and whose year and price are equal always fingerprint identically, and on
records whose year and price are not the integer `0` the code agrees with
the spec's wording exactly. -/
theorem C3_fingerprint_amended :
    (∀ rec : Listing, fingerprint rec
        = cleanTitle (rec.title.getD "") ++ "|" ++ falsyIntStr rec.year ++ "|"
            ++ falsyIntStr rec.price)
  ∧ (∀ r1 r2 : Listing, cleanTitle (r1.title.getD "") = cleanTitle (r2.title.getD "")
        → r1.year = r2.year → r1.price = r2.price → fingerprint r1 = fingerprint r2)
  ∧ (∀ rec : Listing, rec.year ≠ some 0 → rec.price ≠ some 0 →
        fingerprint rec = specFingerprint rec) := by
  refine ⟨fun rec => rfl, ?_, ?_⟩
  · intro r1 r2 h1 h2 h3
    unfold fingerprint
    rw [h1, h2, h3]
  · intro rec hy hp
    have hys : falsyIntStr rec.year = specRenderInt rec.year := by
      unfold falsyIntStr specRenderInt
      cases h : rec.year with
      | none => rfl
      | some n => exact if_neg (fun h0 => hy (by rw [h, h0]))
    have hps : falsyIntStr rec.price = specRenderInt rec.price := by
      unfold falsyIntStr specRenderInt
      cases h : rec.price with
      | none => rfl
      | some n => exact if_neg (fun h0 => hp (by rw [h, h0]))
    unfold fingerprint specFingerprint
    rw [hys, hps]

/-- Witness for C3 at a concrete record with non-zero year and price. -/
theorem C3_fingerprint_witness :
    fingerprint ⟨some "Cooper S", some 25000, none, some 2021, none, none, none, "kijiji", none⟩
      = specFingerprint
          ⟨some "Cooper S", some 25000, none, some 2021, none, none, none, "kijiji", none⟩ :=
  C3_fingerprint_amended.2.2 _ (by decide) (by decide)

/-- Counterexample to claim C4 as stated: the autotrader `parse_title`
(one of the two cited parsers) tries candidates in vocabulary order with a
bare substring test, so with vocabulary `["Cooper", "Cooper S"]` and title
`"2020 Cooper S Hardtop"` it returns `"Cooper"`, not `"Cooper S"`. -/
theorem C4_longest_first_counterexample :
    autotraderParseTitle [("mini", ["Cooper", "Cooper S"])] "2020 Cooper S Hardtop" "mini"
      = (some 2020, some "Cooper")
  ∧ (autotraderParseTitle [("mini", ["Cooper", "Cooper S"])] "2020 Cooper S Hardtop" "mini").2
      ≠ some "Cooper S" := by
  decide

/-- Claim C4 as amended: the **kijiji** parser tries candidates longest
first — any returned model is a matching candidate of maximal length
among the matching ones — and on the claim's example returns
`"Cooper S"`; the **autotrader** parser checks candidates in vocabulary
order with a bare substring test and returns `"Cooper"` on that same
example. -/
theorem C4_longest_first_amended :
    (∀ (models : List String) (text m : String),
        kijijiFindModel models text = some m →
          m ∈ models ∧ kijijiMatches m text = true ∧
            ∀ c ∈ models, kijijiMatches c text = true → c.length ≤ m.length)
  ∧ kijijiParseTitle [("mini", ["Cooper", "Cooper S"])] "2020 Cooper S Hardtop" "mini"
      = (some "2020", some "Cooper S")
  ∧ autotraderParseTitle [("mini", ["Cooper", "Cooper S"])] "2020 Cooper S Hardtop" "mini"
      = (some 2020, some "Cooper") :=
  ⟨fun _ _ _ h => kijijiFindModel_longest h, by decide, by decide⟩

/-- Witness for C4: the kijiji selection at the concrete vocabulary
`["Cooper", "Cooper S"]` and working text `"cooper s hardtop"`. -/
theorem C4_longest_first_witness :
    ("Cooper S" ∈ ["Cooper", "Cooper S"]) ∧ "Cooper".length ≤ "Cooper S".length :=
  ⟨(C4_longest_first_amended.1 ["Cooper", "Cooper S"] "cooper s hardtop" "Cooper S"
      (by decide)).1,
   (C4_longest_first_amended.1 ["Cooper", "Cooper S"] "cooper s hardtop" "Cooper S"
      (by decide)).2.2 "Cooper" (by decide) (by decide)⟩

/-- Counterexample to claim C5 as stated: the autotrader `parse_title`
(one of the two cited parsers) uses a bare substring test, so candidate
`"3"` does match inside `"350Z"` and is returned as the model. -/
theorem C5_boundary_counterexample :
    autotraderParseTitle [("nissan", ["3"])] "2019 350Z Special" "nissan"
      = (some 2019, some "3")
  ∧ pySubstr "3" "2019 350z special" = true := by
  decide

/-- Claim C5 as amended: the **kijiji** parser anchors every candidate at
word boundaries, so for every vocabulary the candidate `"3"` is never the
model returned for title `"2019 350Z Special"` (and with vocabulary
`["3"]` the model is null); the **autotrader** parser uses a bare
substring test and returns `"3"` on that title. -/
theorem C5_boundary_amended :
    (∀ (models : List String) (m : String),
        kijijiFindModel models (kijijiWorkingText "2019 350Z Special") = some m → m ≠ "3")
  ∧ kijijiParseTitle [("nissan", ["3"])] "2019 350Z Special" "nissan" = (some "2019", none)
  ∧ autotraderParseTitle [("nissan", ["3"])] "2019 350Z Special" "nissan"
      = (some 2019, some "3") := by
  refine ⟨?_, by decide, by decide⟩
  intro models m h heq
  subst heq
  exact absurd (kijijiFindModel_longest h).2.1 (by decide)

/-- Witness for C5: with vocabulary `["350Z"]` the kijiji selection on
that title returns `"350Z"`, which is indeed not `"3"`. -/
theorem C5_boundary_witness : ("350Z" : String) ≠ "3" :=
  C5_boundary_amended.1 ["350Z"] "350Z" (by decide)

/-- Counterexample to claim C6 as stated: `normalize_text` on the empty
string returns the empty string, not null. -/
theorem C6_normalizer_counterexample :
    normalize_text (some "") = some "" ∧ normalize_text (some "") ≠ none := by
  decide

/-- Claim C6 as amended: the three normalizers are total functions of
their string-or-null input (they are plain Lean functions here, so they
cannot raise); `parse_int` and `canonicalize_location` return null on
null, empty or unparseable input; `normalize_text` returns null for null
input but returns the **empty string** for empty input. -/
theorem C6_normalizer_amended :
    normalize_text none = none
  ∧ normalize_text (some "") = some ""
  ∧ normalize_text (some "  x y ") = some "x y"
  ∧ parse_int none = none
  ∧ parse_int (some "") = none
  ∧ parse_int (some "abc") = none
  ∧ parse_int (some "-") = none
  ∧ parse_int (some "--5") = none
  ∧ canonicalize_location none = none
  ∧ canonicalize_location (some "") = none
  ∧ canonicalize_location (some " , / ") = none
  ∧ canonicalize_location (some "toronto / ontario - canada") = some "Toronto, Ontario" := by
  decide

/-- Counterexample to claim C7 as stated: on `"5-3"` the code keeps the
embedded minus sign (it strips only characters that are neither digits
nor minus signs, leading or not), making `int` fail and the result null —
the spec-worded parse would strip the non-leading minus and return 53. -/
theorem C7_parse_int_counterexample :
    parse_int (some "5-3") = none
  ∧ specParseInt (some "5-3") = some 53
  ∧ parse_int (some "5-3") ≠ specParseInt (some "5-3") := by
  decide

/-- Claim C7 as amended: `parse_int` strips every character that is not a
digit or a minus sign (all minus signs are kept, wherever they occur),
parses the remainder as an integer and returns null if the remainder is
empty or unparseable — in particular an embedded minus makes the
remainder unparseable rather than being stripped; `"$24,500"` → 24500 and
`"120,000 km"` → 120000 still hold. -/
theorem C7_parse_int_amended :
    parse_int (some "$24,500") = some 24500
  ∧ parse_int (some "120,000 km") = some 120000
  ∧ parse_int (some "$-500") = some (-500)
  ∧ parse_int (some "5-3") = none
  ∧ (∀ s : String, s.data.filter (fun c => c.isDigit || c = '-') = [] →
        parse_int (some s) = none) := by
  refine ⟨by decide, by decide, by decide, by decide, ?_⟩
  intro s h
  simp only [parse_int]
  rw [h]
  rfl

/-- Witness for C7 on a string with no digits at all. -/
theorem C7_parse_int_witness : parse_int (some "n/a") = none :=
  C7_parse_int_amended.2.2.2.2 "n/a" (by decide)

/-- Counterexample to claim C8 as stated: the Builder's output has no
`transmission`, `fuel` or `deal_tag` field, even when the raw record
supplies them. -/
theorem C8_fields_counterexample :
    ¬ "transmission" ∈ (listingFields
        (normalize_listing [("transmission", some "Automatic")] "kijiji")).map Prod.fst
  ∧ ¬ "fuel" ∈ (listingFields
        (normalize_listing [("fuel", some "Gas")] "kijiji")).map Prod.fst
  ∧ ¬ "deal_tag" ∈ (listingFields
        (normalize_listing [("deal_tag", some "Great")] "kijiji")).map Prod.fst := by
  decide

/-- Claim C8 as amended: for every RawListing and source tag the Builder
produces a record with exactly the nine fields `title`, `price`,
`mileage_km`, `year`, `model`, `province_city`, `link`, `source`,
`extra`, present (possibly null) in that fixed order regardless of which
raw keys were supplied; `transmission`, `fuel` and `deal_tag` are not
top-level fields — when supplied they are preserved inside `extra`. -/
theorem C8_fields_amended :
    (∀ (raw : List (String × Option String)) (src : String),
        (listingFields (normalize_listing raw src)).map Prod.fst
          = ["title", "price", "mileage_km", "year", "model", "province_city",
             "link", "source", "extra"])
  ∧ (normalize_listing [("transmission", some "Automatic"), ("fuel", some "Gas"),
        ("deal_tag", some "Great")] "kijiji").extra
      = some [("transmission", some "Automatic"), ("fuel", some "Gas"),
              ("deal_tag", some "Great")] :=
  ⟨fun _ _ => rfl, by decide⟩

/-- Counterexample to claim C9 as stated: a raw price of `"-500"`
normalizes to the negative integer price `-500`. -/
theorem C9_price_nonneg_counterexample :
    (normalize_listing [("price", some "-500")] "autotrader").price = some (-500)
  ∧ (-500 : Int) < 0 := by
  decide

/-- Claim C9 as amended: the Builder's price is null or an integer; it can
be negative only when the raw price string contains a minus sign — a
missing raw price yields null, and a raw price string without `-` yields
null or a non-negative integer. -/
theorem C9_price_nonneg_amended (raw : List (String × Option String)) (src : String) :
    (rawGet raw "price" = none → (normalize_listing raw src).price = none)
  ∧ (∀ s : String, rawGet raw "price" = some s → ¬ '-' ∈ s.data →
      (normalize_listing raw src).price = none
      ∨ ∃ n : Int, (normalize_listing raw src).price = some n ∧ 0 ≤ n) := by
  have hp : (normalize_listing raw src).price = parse_int (rawGet raw "price") := rfl
  constructor
  · intro h
    rw [hp, h]
    rfl
  · intro s hs hneg
    rw [hp, hs]
    simp only [parse_int]
    apply pyIntOfDigitsMinus_of_all_digits
    rw [List.all_eq_true]
    intro c hc
    rcases List.mem_filter.mp hc with ⟨hmem, hcond⟩
    have hcond2 : c.isDigit = true ∨ c = '-' := by simpa using hcond
    rcases hcond2 with hd | hm
    · exact hd
    · exact absurd (hm ▸ hmem) hneg

/-- Witness for C9 at a concrete raw record with a minus-free price. -/
theorem C9_price_nonneg_witness :
    (normalize_listing [("price", some "$24,500")] "autotrader").price = none
  ∨ ∃ n : Int,
      (normalize_listing [("price", some "$24,500")] "autotrader").price = some n ∧ 0 ≤ n :=
  (C9_price_nonneg_amended [("price", some "$24,500")] "autotrader").2 "$24,500"
    (by decide) (by decide)

/-- Claim C10: the fingerprint conflates null fields with falsy values —
a zero price fingerprints like a null price and a null title like an
empty title — so the merge engine deduplicates a zero-price listing
against an otherwise-identical listing whose price is unknown. -/
theorem C10_falsy_fingerprint (rec : Listing) :
    fingerprint { rec with price := some 0 } = fingerprint { rec with price := none }
  ∧ fingerprint { rec with title := none } = fingerprint { rec with title := some "" }
  ∧ mergeDedup [{ rec with price := some 0 }, { rec with price := none }]
      = [{ rec with price := some 0 }] := by
  obtain ⟨t, p, m, y, mo, pc, l, s, e⟩ := rec
  refine ⟨by simp [fingerprint, falsyIntStr], rfl, ?_⟩
  show (dedupRun _ [] []).1 = _
  cases l with
  | none => simp [dedupRun, truthyLink, fingerprint, falsyIntStr]
  | some s' =>
      by_cases hs : s' = ""
      · simp [dedupRun, truthyLink, hs, fingerprint, falsyIntStr]
      · simp [dedupRun, truthyLink, hs, fingerprint, falsyIntStr]

end CarMerge
